import Mathlib

/-!
Verification development for the gatekeeper validation framework.

The Rust sources are shallowly embedded:
- error/rc_list.rs : RcList models the persistent list type, with the chain
  of reference-counted prev pointers flattened into a Lean list whose head is
  the newest node, and the cached length kept as a separate structure field.
- error/mod.rs : Kind, Component (the PathComponentKind implementors), Path,
  Error, Report, and their Display implementations (here called render).
- validate.rs : the Validate trait as a Validator record, the validate and
  validate_with drivers, Unvalidated and Valid, the blanket reference impls,
  and the User exemplar from the tests module.

Mutable out-parameters become explicit state passing, and fallible results
become Except values.
-/

namespace Gatekeeper

/-! ### Persistent list (src/gatekeeper/src/error/rc_list.rs) -/

/-- Embeds the persistent list: a node chain (newest value first) plus the
cached length field that the Rust struct carries alongside the chain. -/
structure RcList (α : Type) where
  node : List α
  length : Nat
deriving DecidableEq

/-- Embeds the list constructor: no node, length 0. -/
def RcList.new {α : Type} : RcList α := ⟨[], 0⟩

/-- Embeds len, which returns the cached length field. -/
def RcList.len {α : Type} (l : RcList α) : Nat := l.length

/-- Embeds is_empty, which tests the cached length against 0. -/
def RcList.is_empty {α : Type} (l : RcList α) : Bool := l.length == 0

/-- Embeds append: a new list whose head node holds the value and whose prev
pointer shares the node chain of the receiver; the receiver is untouched. -/
def RcList.append {α : Type} (l : RcList α) (value : α) : RcList α :=
  ⟨value :: l.node, l.length + 1⟩

/-- The iterator state: the next and node fields, each a possibly empty
reference-counted chain flattened to a Lean list. -/
structure Iter (α : Type) where
  next : List α
  node : List α

/-- Embeds the iterator constructor: next is empty, node is the list chain. -/
def Iter.new {α : Type} (l : RcList α) : Iter α := ⟨[], l.node⟩

/-- One call of next on the iterator: take the node field, swap it into the
next field, advance the node field to the prev chain of the new next node
when that prev exists, and return the value held by the next field. -/
def Iter.step {α : Type} (it : Iter α) : Option α × Iter α :=
  let next := it.node
  let node : List α :=
    match next with
    | _ :: prev :: rest => prev :: rest
    | _ => []
  (next.head?, ⟨next, node⟩)

/-- Runs the iterator to exhaustion, with explicit fuel. -/
def Iter.collect {α : Type} : Iter α → Nat → List α
  | _, 0 => []
  | it, fuel + 1 =>
    match Iter.step it with
    | (none, _) => []
    | (some x, it2) => x :: Iter.collect it2 fuel

/-- Every value the iterator yields, in yield order. -/
def RcList.iterList {α : Type} (l : RcList α) : List α :=
  Iter.collect (Iter.new l) l.node.length

/-- Repeats append over a sequence of values, oldest first. -/
def RcList.appendAll {α : Type} (l : RcList α) (vs : List α) : RcList α :=
  vs.foldl RcList.append l

/-! ### Path components, Path, Error, Report (src/gatekeeper/src/error/mod.rs) -/

/-- Embeds the Kind enum. -/
inductive Kind where
  | none
  | key
  | index
deriving DecidableEq, Repr

/-- The concrete PathComponentKind implementors: usize maps to Index, string
keys map to Key, and the unit marker NoKey maps to None. -/
inductive Component where
  | index (i : Nat)
  | key (s : String)
  | noKey
deriving DecidableEq, Repr

/-- Embeds component_kind per implementor. -/
def Component.component_kind : Component → Kind
  | .index _ => .index
  | .key _ => .key
  | .noKey => .none

/-- Embeds the text conversion per implementor: decimal digits for usize,
the text itself for string keys, and the empty string for NoKey, whose
Display impl writes nothing. -/
def Component.to_compact_string : Component → String
  | .index i => toString i
  | .key s => s
  | .noKey => ""

/-- Embeds Path: a persistent list of (Kind, text) components, the newest
component at the head of the chain. -/
structure Path where
  components : RcList (Kind × String)
deriving DecidableEq

/-- Embeds the empty root path. -/
def Path.empty : Path := ⟨RcList.new⟩

/-- Embeds len on Path. -/
def Path.len (p : Path) : Nat := p.components.len

/-- Embeds is_empty on Path. -/
def Path.is_empty (p : Path) : Bool := p.components.is_empty

/-- Embeds the single-component Path constructor. -/
def Path.new (c : Component) : Path :=
  ⟨RcList.new.append (c.component_kind, c.to_compact_string)⟩

/-- Embeds join, which appends one component to the chain. -/
def Path.join (p : Path) (c : Component) : Path :=
  ⟨p.components.append (c.component_kind, c.to_compact_string)⟩

/-- Embeds the hidden iteration helper: the components in list-iteration
order (newest first), collected into a temporary vector. -/
def Path.iterComponents (p : Path) : List (Kind × String) :=
  p.components.iterList

/-- Embeds the emission loop of the Path Display impl, over the already
reversed (root-to-tail) component sequence, with the first flag: an opening
bracket before a first Index component, then the component text, a closing
bracket after an Index component, then a separator chosen by peeking at the
kind of the next component (nothing before None, a dot before Key, an
opening bracket before Index). -/
def Path.fmtLoop : List (Kind × String) → Bool → String
  | [], _ => ""
  | (kind, component) :: rest, first =>
    (if first && kind == Kind.index then "[" else "")
      ++ component
      ++ (if kind == Kind.index then "]" else "")
      ++ (match rest with
          | [] => ""
          | (k, _) :: _ =>
            match k with
            | Kind.none => ""
            | Kind.key => "."
            | Kind.index => "[")
      ++ Path.fmtLoop rest false

/-- Embeds the Path Display impl: reverse the iteration order into
root-to-tail order and run the emission loop. -/
def Path.render (p : Path) : String :=
  Path.fmtLoop p.iterComponents.reverse true

/-- Embeds Error: an owned message string. -/
structure Error where
  message : String
deriving DecidableEq

/-- Embeds the Error constructor. -/
def Error.new (message : String) : Error := ⟨message⟩

/-- Embeds the Error Display impl: the message verbatim. -/
def Error.render (e : Error) : String := e.message

/-- Embeds Report: the vector of (Path, Error) pairs in push order (the
inline versus heap placement of the backing SmallVec is not observable). -/
structure Report where
  errors : List (Path × Error)
deriving DecidableEq

/-- Embeds the Report constructor. -/
def Report.new : Report := ⟨[]⟩

/-- Embeds append on Report: push the pair at the end. -/
def Report.append (r : Report) (path : Path) (error : Error) : Report :=
  ⟨r.errors ++ [(path, error)]⟩

/-- Embeds is_empty on Report. -/
def Report.is_empty (r : Report) : Bool := r.errors.isEmpty

/-- Embeds the Report Display impl: for each pair in order, one line holding
the error alone when the path is empty, and path-colon-space-error
otherwise, each line terminated by a newline. -/
def Report.render (r : Report) : String :=
  r.errors.foldl
    (fun acc pe =>
      acc ++ (if pe.1.is_empty then pe.2.render else pe.1.render ++ ": " ++ pe.2.render)
        ++ "\n")
    ""

/-- Repeats append on Report over a sequence of pairs, oldest first. -/
def Report.appendAll (r : Report) (ps : List (Path × Error)) : Report :=
  ps.foldl (fun acc pe => acc.append pe.1 pe.2) r

/-! ### Validate trait, drivers, typestate wrappers (src/gatekeeper/src/validate.rs) -/

/-- Embeds the Validate trait through its required method validate_into. The
path-builder closure becomes a function from Unit to Path, and the mutable
report out-parameter becomes explicit state passing. -/
structure Validator (T : Type) (Ctx : Type) where
  validate_into : T → Ctx → (Unit → Path) → Report → Report

/-- Embeds the provided method validate_with: run validate_into from a fresh
report and the empty-root-path builder, then succeed exactly when the report
is empty, and otherwise fail carrying the whole report. -/
def Validator.validate_with {T Ctx : Type} (V : Validator T Ctx) (v : T) (ctx : Ctx) :
    Except Report Unit :=
  let report := V.validate_into v ctx (fun _ => Path.empty) Report.new
  match report.is_empty with
  | true => Except.ok ()
  | false => Except.error report

/-- Embeds the provided method validate: validate_with at the default
context value. -/
def Validator.validate {T Ctx : Type} [Inhabited Ctx] (V : Validator T Ctx) (v : T) :
    Except Report Unit :=
  V.validate_with v default

/-- Embeds the Valid wrapper. -/
structure Valid (T : Type) where
  val : T
deriving DecidableEq

/-- Embeds into_inner on Valid. -/
def Valid.into_inner {T : Type} (v : Valid T) : T := v.val

/-- Embeds the Unvalidated wrapper. -/
structure Unvalidated (T : Type) where
  val : T
deriving DecidableEq

/-- Embeds the Unvalidated constructor. -/
def Unvalidated.new {T : Type} (v : T) : Unvalidated T := ⟨v⟩

/-- Embeds validate_with on Unvalidated: validate the inner value, propagate
a failure report, and otherwise wrap the same inner value in Valid. -/
def Unvalidated.validate_with {T Ctx : Type} (u : Unvalidated T) (V : Validator T Ctx)
    (ctx : Ctx) : Except Report (Valid T) :=
  match V.validate_with u.val ctx with
  | Except.ok _ => Except.ok ⟨u.val⟩
  | Except.error r => Except.error r

/-- Embeds validate on Unvalidated: validate the inner value at the default
context, propagate a failure report, and otherwise wrap the same inner value
in Valid. -/
def Unvalidated.validate {T Ctx : Type} [Inhabited Ctx] (u : Unvalidated T)
    (V : Validator T Ctx) : Except Report (Valid T) :=
  match V.validate u.val with
  | Except.ok _ => Except.ok ⟨u.val⟩
  | Except.error r => Except.error r

/-- A shared reference, with the one level of indirection made explicit. -/
structure Ref (T : Type) where
  deref : T

/-- An exclusive reference (only ever read through, in this code). -/
structure MutRef (T : Type) where
  deref : T

/-- Embeds the blanket Validate impl for shared references: validate_into
delegates to validate_into of the pointed-to value. -/
def Validator.refValidator {T Ctx : Type} (V : Validator T Ctx) : Validator (Ref T) Ctx :=
  ⟨fun r ctx parent report => V.validate_into r.deref ctx parent report⟩

/-- Embeds the blanket Validate impl for exclusive references: validate_into
delegates to validate_into of the pointed-to value. -/
def Validator.mutRefValidator {T Ctx : Type} (V : Validator T Ctx) : Validator (MutRef T) Ctx :=
  ⟨fun r ctx parent report => V.validate_into r.deref ctx parent report⟩

/-! ### The User exemplar from the tests module of validate.rs -/

/-- Embeds str trimming: drop leading and trailing whitespace. (The built-in
String.trim of Lean is equivalent but does not reduce well in the kernel.) -/
def strTrim (s : String) : String :=
  String.mk (((s.data.dropWhile Char.isWhitespace).reverse.dropWhile Char.isWhitespace).reverse)

/-- Embeds the User struct from the tests: a username and an age. -/
structure User where
  username : String
  age : Nat
deriving DecidableEq

/-- Embeds validate_into of User: append an error at the username key when
the trimmed username is empty, and an error at the age key when the age is
under 18. The second message is embedded byte-for-byte as the source file
has it, mojibake included. -/
def User.validate_into (u : User) (_ctx : Unit) (parent : Unit → Path)
    (report : Report) : Report :=
  let report :=
    if (strTrim u.username).isEmpty then
      report.append ((parent ()).join (Component.key "username"))
        (Error.new "username must not be empty")
    else report
  if u.age < 18 then
    report.append ((parent ()).join (Component.key "age"))
      (Error.new "age must be â‰¥ 18")
  else report

/-- The Validate impl record for User, with unit context. -/
def User.validator : Validator User Unit := ⟨User.validate_into⟩

/-! ### Spec-level rendering definitions, for comparison with Path.render -/

/-- Separator written immediately before a component, determined by the kind
of that component (the amended reading of the rendering rules): nothing
before a None component, a dot before a Key component, an opening bracket
before an Index component. -/
def specSeparator : Kind → String
  | .none => ""
  | .key => "."
  | .index => "["

/-- Text a component itself contributes: its bare text, closed by a bracket
for an Index component. -/
def specCompBody : Kind × String → String
  | (k, t) => t ++ (if k == Kind.index then "]" else "")

/-- Tail of the spec-level rendering: each later component is preceded by
the separator its own kind demands. -/
def specRenderTail : List (Kind × String) → String
  | [] => ""
  | d :: rest => specSeparator d.1 ++ specCompBody d ++ specRenderTail rest

/-- Spec-level rendering of a root-to-tail component sequence under the
amended rules: the first component is bare except that a first Index
component opens a bracket, and each later component is preceded by the
separator determined by its own kind. -/
def specRender : List (Kind × String) → String
  | [] => ""
  | c :: rest =>
    (if c.1 == Kind.index then "[" else "") ++ specCompBody c ++ specRenderTail rest

/-- Modelled from the claim wording of C2, taken literally: the separator
between two adjacent components is suppressed outright when the earlier
component is None-kind, and is otherwise the dot or bracket demanded by the
later component. -/
def claimSeparator : Kind → Kind → String
  | Kind.none, _ => ""
  | _, k => specSeparator k

/-- Tail of the claim-literal rendering: each later component is preceded by
claimSeparator of the kind of the previous component and its own kind. -/
def claimRenderTail : Kind → List (Kind × String) → String
  | _, [] => ""
  | prev, d :: rest => claimSeparator prev d.1 ++ specCompBody d ++ claimRenderTail d.1 rest

/-- Root-to-tail rendering exactly as claim C2 words its rules. -/
def claimRender : List (Kind × String) → String
  | [] => ""
  | c :: rest =>
    (if c.1 == Kind.index then "[" else "") ++ specCompBody c ++ claimRenderTail c.1 rest

/-- Separator the emission loop will write after the current component, by
peeking at the head of the remaining sequence. -/
def peekSep : List (Kind × String) → String
  | [] => ""
  | (k, _) :: _ =>
    match k with
    | Kind.none => ""
    | Kind.key => "."
    | Kind.index => "["

/-- One rendered Report line for one (Path, Error) pair, newline included. -/
def renderedLine (pe : Path × Error) : String :=
  (if pe.1.is_empty then pe.2.render else pe.1.render ++ ": " ++ pe.2.render) ++ "\n"

/-- A path of n plus one NoKey components: Path.new on NoKey followed by n
join calls with NoKey. -/
def Path.noKeyChain : Nat → Path
  | 0 => Path.new Component.noKey
  | n + 1 => (Path.noKeyChain n).join Component.noKey

/-! ### Helper lemmas -/

theorem Iter.collect_eq {α : Type} (nd : List α) :
    ∀ (nx : List α) (fuel : Nat), nd.length ≤ fuel →
      Iter.collect ⟨nx, nd⟩ fuel = nd := by
  induction nd with
  | nil =>
    intro nx fuel _
    cases fuel with
    | zero => rfl
    | succ f => rfl
  | cons a rest ih =>
    intro nx fuel h
    cases fuel with
    | zero => exact absurd h (by simp)
    | succ f =>
      have hrest : rest.length ≤ f := Nat.le_of_succ_le_succ (by simpa using h)
      cases rest with
      | nil =>
        simp only [Iter.collect, Iter.step, List.head?]
        exact congrArg (a :: ·) (ih [a] f hrest)
      | cons b r2 =>
        simp only [Iter.collect, Iter.step, List.head?]
        exact congrArg (a :: ·) (ih (a :: b :: r2) f hrest)

theorem RcList.iterList_eq_node {α : Type} (l : RcList α) :
    l.iterList = l.node :=
  Iter.collect_eq l.node [] l.node.length (Nat.le_refl _)

theorem RcList.appendAll_node {α : Type} (vs : List α) :
    ∀ l : RcList α,
      (l.appendAll vs).node = vs.reverse ++ l.node ∧
      (l.appendAll vs).length = l.length + vs.length := by
  induction vs with
  | nil => intro l; simp [RcList.appendAll]
  | cons v rest ih =>
    intro l
    have h := ih (l.append v)
    constructor
    · calc (l.appendAll (v :: rest)).node
          = ((l.append v).appendAll rest).node := rfl
        _ = rest.reverse ++ (v :: l.node) := h.1
        _ = (v :: rest).reverse ++ l.node := by simp
    · calc (l.appendAll (v :: rest)).length
          = ((l.append v).appendAll rest).length := rfl
        _ = (l.append v).length + rest.length := h.2
        _ = l.length + (v :: rest).length := by
              simp only [RcList.append, List.length_cons]
              omega

theorem fmtLoop_false_eq : ∀ rest : List (Kind × String),
    peekSep rest ++ Path.fmtLoop rest false = specRenderTail rest := by
  intro rest
  induction rest with
  | nil => rfl
  | cons hd tl ih =>
    obtain ⟨k1, t1⟩ := hd
    cases tl with
    | nil =>
      cases k1 <;>
        simp [peekSep, Path.fmtLoop, specRenderTail, specSeparator, specCompBody,
          String.append_assoc, String.empty_append, String.append_empty]
    | cons d ds =>
      obtain ⟨k2, t2⟩ := d
      cases k1 <;> cases k2 <;>
        (simp [peekSep, Path.fmtLoop, specRenderTail, specSeparator, specCompBody,
          String.append_assoc, String.empty_append] at ih ⊢) <;>
        rw [← ih] <;> simp [← String.append_assoc]

theorem string_foldl_append : ∀ (l : List String) (a : String),
    l.foldl (fun x y => x ++ y) a = a ++ String.join l := by
  intro l
  induction l with
  | nil => intro a; simp [String.join, List.foldl, String.append_empty]
  | cons s rest ih =>
    intro a
    have h1 : (s :: rest).foldl (fun x y => x ++ y) a
        = rest.foldl (fun x y => x ++ y) (a ++ s) := rfl
    have h2 : String.join (s :: rest) = rest.foldl (fun x y => x ++ y) ("" ++ s) := rfl
    rw [h1, ih, h2, ih, String.empty_append, String.append_assoc]

theorem report_render_eq_join (r : Report) :
    r.render = String.join (r.errors.map renderedLine) := by
  have hfold := string_foldl_append (r.errors.map renderedLine) ""
  rw [List.foldl_map] at hfold
  rw [String.empty_append] at hfold
  calc r.render
      = r.errors.foldl (fun acc pe => acc ++ renderedLine pe) "" := by
        unfold Report.render renderedLine
        congr 1
        funext acc pe
        rw [String.append_assoc]
    _ = String.join (r.errors.map renderedLine) := hfold

theorem report_appendAll_errors (ps : List (Path × Error)) :
    ∀ r : Report, (r.appendAll ps).errors = r.errors ++ ps := by
  induction ps with
  | nil => intro r; simp [Report.appendAll]
  | cons pe rest ih =>
    intro r
    calc (r.appendAll (pe :: rest)).errors
        = ((r.append pe.1 pe.2).appendAll rest).errors := rfl
      _ = (r.append pe.1 pe.2).errors ++ rest := ih _
      _ = r.errors ++ pe :: rest := by simp [Report.append]

theorem noKeyChain_components (n : Nat) :
    (Path.noKeyChain n).components.node = List.replicate (n + 1) (Kind.none, "") ∧
    (Path.noKeyChain n).components.length = n + 1 := by
  induction n with
  | zero => exact ⟨rfl, rfl⟩
  | succ m ih =>
    constructor
    · calc (Path.noKeyChain (m + 1)).components.node
          = (Kind.none, "") :: (Path.noKeyChain m).components.node := rfl
        _ = (Kind.none, "") :: List.replicate (m + 1) (Kind.none, "") := by rw [ih.1]
        _ = List.replicate (m + 2) (Kind.none, "") := rfl
    · calc (Path.noKeyChain (m + 1)).components.length
          = (Path.noKeyChain m).components.length + 1 := rfl
        _ = m + 2 := by rw [ih.2]

theorem fmtLoop_replicate_none (m : Nat) :
    ∀ b : Bool, Path.fmtLoop (List.replicate m (Kind.none, "")) b = "" := by
  induction m with
  | zero => intro b; rfl
  | succ k ih =>
    intro b
    cases k with
    | zero => cases b <;> rfl
    | succ k2 =>
      have hk := ih false
      calc Path.fmtLoop (List.replicate (k2 + 2) (Kind.none, "")) b
          = "" ++ "" ++ "" ++ ""
              ++ Path.fmtLoop (List.replicate (k2 + 1) (Kind.none, "")) false := by
            cases b <;> rfl
        _ = "" := by rw [hk]; rfl

/-! ### Claim theorems -/

/-- C1: validate_with succeeds exactly when the report built by running
validate_into from the empty root path holds zero (path, error) pairs; when
any pair is present it fails carrying that full report, with every pair; and
validate is validate_with at the default context. -/
theorem validate_ok_iff_report_empty {T Ctx : Type} [Inhabited Ctx]
    (V : Validator T Ctx) (v : T) (ctx : Ctx) :
    (V.validate_with v ctx = Except.ok () ↔
      (V.validate_into v ctx (fun _ => Path.empty) Report.new).errors = []) ∧
    ((V.validate_into v ctx (fun _ => Path.empty) Report.new).errors ≠ [] →
      V.validate_with v ctx =
        Except.error (V.validate_into v ctx (fun _ => Path.empty) Report.new)) ∧
    V.validate v = V.validate_with v default := by
  refine ⟨?_, ?_, rfl⟩
  · constructor
    · intro hok
      by_contra hne
      have hf : (V.validate_into v ctx (fun _ => Path.empty) Report.new).is_empty = false := by
        simp [Report.is_empty, List.isEmpty_iff, hne]
      simp [Validator.validate_with, hf] at hok
    · intro hnil
      have ht : (V.validate_into v ctx (fun _ => Path.empty) Report.new).is_empty = true := by
        simp [Report.is_empty, List.isEmpty_iff, hnil]
      simp [Validator.validate_with, ht]
  · intro hne
    have hf : (V.validate_into v ctx (fun _ => Path.empty) Report.new).is_empty = false := by
      simp [Report.is_empty, List.isEmpty_iff, hne]
    simp [Validator.validate_with, hf]

/-- C1 witness: the User exemplar exercises both branches at concrete
inputs. -/
theorem validate_ok_iff_report_empty_witness :
    User.validator.validate_with (⟨"bob", 22⟩ : User) () = Except.ok () ∧
    User.validator.validate_with (⟨"", 10⟩ : User) () =
      Except.error (User.validator.validate_into ⟨"", 10⟩ ()
        (fun _ => Path.empty) Report.new) := by
  constructor
  · exact (validate_ok_iff_report_empty User.validator ⟨"bob", 22⟩ ()).1.mpr (by decide)
  · exact (validate_ok_iff_report_empty User.validator ⟨"", 10⟩ ()).2.1 (by decide)

/-- C2 counterexample: at the path built from a NoKey component joined with
the key a, the code renders a dot between the None-kind component and the
following Key-kind component, while the claim rules as literally stated
(no separator between a None-kind component and the component following it)
produce no separator there. -/
theorem path_render_none_separator_counterexample :
    Path.render ((Path.new Component.noKey).join (Component.key "a")) = ".a" ∧
    claimRender (Path.iterComponents
      ((Path.new Component.noKey).join (Component.key "a"))).reverse = "a" ∧
    (".a" : String) ≠ "a" := by
  refine ⟨by decide, by decide, by decide⟩

/-- C2 (amended): the Display rendering collects the components newest
first, reverses them into root-to-tail order, and emits them left to right
with the separator before each component determined by the kind of that
component itself: nothing before a None-kind component, a dot before a
Key-kind component, an opening bracket before an Index-kind component; the
first component takes no separator except that a first Index-kind component
opens a bracket, and every Index-kind component is closed by a bracket. -/
theorem path_render_eq_spec (p : Path) :
    Path.render p = specRender p.iterComponents.reverse := by
  unfold Path.render
  cases h : p.iterComponents.reverse with
  | nil => rfl
  | cons c rest =>
    obtain ⟨k, t⟩ := c
    have htail := fmtLoop_false_eq rest
    cases k <;>
      (simp [Path.fmtLoop, specRender, specCompBody, String.append_assoc,
        String.empty_append]) <;>
      rw [← htail] <;>
      cases rest <;>
      simp [peekSep, specSeparator, String.append_assoc, String.empty_append]

/-- C3: at the exemplar input with empty username and age 10 the validation
fails, but the second rendered line of the report is the mojibake text from
the source, not the claimed line with a real greater-or-equal sign. -/
theorem user_bad_input_render :
    (match User.validator.validate_with (⟨"", 10⟩ : User) () with
      | Except.error r => Report.render r
      | Except.ok _ => "") =
      "username: username must not be empty\nage: age must be â‰¥ 18\n" ∧
    ("username: username must not be empty\nage: age must be â‰¥ 18\n" ≠
      "username: username must not be empty\nage: age must be ≥ 18\n") := by
  constructor
  · decide
  · decide

/-- C4: validating an Unvalidated wrapper succeeds exactly when the
underlying validation succeeds, in which case it yields Valid wrapping the
same value and into_inner returns that value; on failure it returns exactly
the failure report, from which no wrapped value is recoverable. -/
theorem unvalidated_typestate {T Ctx : Type} [Inhabited Ctx]
    (V : Validator T Ctx) (v : T) (ctx : Ctx) :
    ((Unvalidated.new v).validate_with V ctx = Except.ok ⟨v⟩ ↔
      V.validate_with v ctx = Except.ok ()) ∧
    (∀ r, V.validate_with v ctx = Except.error r →
      (Unvalidated.new v).validate_with V ctx = Except.error r) ∧
    Valid.into_inner (⟨v⟩ : Valid T) = v ∧
    ((Unvalidated.new v).validate V = Except.ok ⟨v⟩ ↔
      V.validate v = Except.ok ()) ∧
    (∀ r, V.validate v = Except.error r →
      (Unvalidated.new v).validate V = Except.error r) := by
  refine ⟨?_, ?_, rfl, ?_, ?_⟩
  · cases h : V.validate_with v ctx with
    | ok u => cases u; simp [Unvalidated.validate_with, Unvalidated.new, h]
    | error r => simp [Unvalidated.validate_with, Unvalidated.new, h]
  · intro r hr
    simp [Unvalidated.validate_with, Unvalidated.new, hr]
  · cases h : V.validate v with
    | ok u => cases u; simp [Unvalidated.validate, Unvalidated.new, h]
    | error r => simp [Unvalidated.validate, Unvalidated.new, h]
  · intro r hr
    simp [Unvalidated.validate, Unvalidated.new, hr]

/-- C4 witness: the User exemplar exercises the success branch at a valid
user and the failure branch at an invalid one. -/
theorem unvalidated_typestate_witness :
    (Unvalidated.new (⟨"bob", 22⟩ : User)).validate_with User.validator () =
      Except.ok ⟨⟨"bob", 22⟩⟩ ∧
    (Unvalidated.new (⟨"", 10⟩ : User)).validate_with User.validator () =
      Except.error (User.validator.validate_into ⟨"", 10⟩ ()
        (fun _ => Path.empty) Report.new) := by
  constructor
  · exact (unvalidated_typestate User.validator ⟨"bob", 22⟩ ()).1.mpr (by rfl)
  · exact (unvalidated_typestate User.validator ⟨"", 10⟩ ()).2.1 _ (by rfl)

/-- C5: append returns a fresh list of length one more whose node chain
extends the chain of the receiver by one shared node; the receiver list is
unchanged by a later append, keeping length 1 and yielding only its own
value. -/
theorem rcList_append_pure {α : Type} (l : RcList α) (x y : α) :
    (l.append x).len = l.len + 1 ∧
    (l.append x).node = x :: l.node ∧
    ((RcList.new.append x : RcList α).append y).node
      = y :: (RcList.new.append x : RcList α).node ∧
    (RcList.new.append x : RcList α).len = 1 ∧
    (RcList.new.append x : RcList α).iterList = [x] := by
  refine ⟨rfl, rfl, rfl, rfl, ?_⟩
  exact RcList.iterList_eq_node _

/-- C6: after any sequence of append calls starting from the empty list, the
length equals the number of calls and iteration yields exactly the appended
values newest first, the reverse of append order. -/
theorem rcList_iter_reverse {α : Type} (vs : List α) :
    (RcList.appendAll RcList.new vs).len = vs.length ∧
    (RcList.appendAll RcList.new vs).iterList = vs.reverse := by
  have h := RcList.appendAll_node vs (RcList.new : RcList α)
  constructor
  · calc (RcList.appendAll RcList.new vs).len
        = 0 + vs.length := h.2
      _ = vs.length := by omega
  · calc (RcList.appendAll RcList.new vs).iterList
        = (RcList.appendAll RcList.new vs).node := RcList.iterList_eq_node _
      _ = vs.reverse ++ [] := h.1
      _ = vs.reverse := by simp

/-- C7: a report holds exactly the appended pairs, in append order, with no
deduplication, sorting, or cap, and its rendering is one line per pair in
that order, the line being the error alone for an empty path and
path-colon-space-error otherwise. -/
theorem report_retains_and_renders (ps : List (Path × Error)) :
    (Report.new.appendAll ps).errors = ps ∧
    (Report.new.appendAll ps).render = String.join (ps.map renderedLine) := by
  have he : (Report.new.appendAll ps).errors = ps := by
    rw [report_appendAll_errors ps Report.new]
    rfl
  exact ⟨he, by rw [report_render_eq_join, he]⟩

/-- C8: validating through a shared or exclusive reference is a transparent
pass-through: validate_into on the reference produces exactly the report
that validate_into on the value produces, and the drivers agree as well. -/
theorem ref_validation_transparent {T Ctx : Type} (V : Validator T Ctx) (v : T)
    (ctx : Ctx) (parent : Unit → Path) (report : Report) :
    (V.refValidator).validate_into ⟨v⟩ ctx parent report
      = V.validate_into v ctx parent report ∧
    (V.mutRefValidator).validate_into ⟨v⟩ ctx parent report
      = V.validate_into v ctx parent report ∧
    (V.refValidator).validate_with ⟨v⟩ ctx = V.validate_with v ctx ∧
    (V.mutRefValidator).validate_with ⟨v⟩ ctx = V.validate_with v ctx :=
  ⟨rfl, rfl, rfl, rfl⟩

/-- C9: a path of only NoKey components has positive length and is not
empty, yet renders as the empty string, so a report entry at such a path
takes the non-empty branch and renders as a colon-space line. -/
theorem noKey_path_renders_empty (n : Nat) (msg : String) :
    (Path.noKeyChain n).len = n + 1 ∧
    (Path.noKeyChain n).is_empty = false ∧
    (Path.noKeyChain n).render = "" ∧
    (Report.new.append (Path.noKeyChain n) (Error.new msg)).render
      = ": " ++ msg ++ "\n" := by
  have hc := noKeyChain_components n
  have hlen : (Path.noKeyChain n).len = n + 1 := hc.2
  have hemp : (Path.noKeyChain n).is_empty = false := by
    simp [Path.is_empty, RcList.is_empty, hc.2]
  have hrender : (Path.noKeyChain n).render = "" := by
    unfold Path.render Path.iterComponents
    rw [RcList.iterList_eq_node, hc.1, List.reverse_replicate]
    exact fmtLoop_replicate_none (n + 1) true
  refine ⟨hlen, hemp, hrender, ?_⟩
  unfold Report.render Report.append Report.new
  simp only [List.nil_append, List.foldl_cons, List.foldl_nil, hemp, Bool.false_eq_true,
    if_false, hrender, Error.render, Error.new, String.empty_append]

/-- C10: the Report rendering terminates every line, the last included, with
a newline (one newline-terminated line per pair), and a report with zero
pairs renders as the empty string. -/
theorem report_render_trailing_newlines (r : Report) :
    r.render = String.join (r.errors.map (fun pe =>
      (if pe.1.is_empty then pe.2.render
        else pe.1.render ++ ": " ++ pe.2.render) ++ "\n")) ∧
    Report.new.render = "" := by
  exact ⟨report_render_eq_join r, rfl⟩

end Gatekeeper
